import Mathlib

/-!
A shallow embedding of `BulletproofCollection` from `src/src/lib/BpCollection.js`
(repository Noxware/primo), together with theorems settling the specification
claims about it.

Modelling conventions:
* JavaScript primitive values that appear as collection keys are modelled by the
  inductive type `JsVal` (`undefined`, `null`, booleans, integer numbers,
  strings).  Collection values stay generic in `V`; where an operation can
  return JS `undefined` for a value, the Lean model returns `Option V` with
  `none` standing for `undefined`.  Key-returning operations return `JsVal`
  directly, with `JsVal.undef` standing for `undefined`.
* The backing `Map` is modelled as an insertion-ordered association list with
  JS `Map` semantics: `set` overwrites in place keeping the original position,
  otherwise appends; `get`/`has`/`delete` use key equality.
* Thrown JS errors are modelled with `Except JsError`; an operation that always
  throws never produces a post-state, which models that the collection is left
  unchanged by the failed call.
* `Math.random()` is modelled by an explicit rational parameter `q` fed to
  `randomBetween`, mirroring `Math.floor(Math.random() * (max - min + 1)) + min`.
* Callbacks (`forEach`/`map`/`filter` arguments) are modelled as pure Lean
  functions receiving `(value, key, collection)` exactly as the source passes
  them; the truthiness test on a `filter` predicate's result is modelled by the
  callback returning `Bool`.
-/

/-- JavaScript primitive values used for collection keys. -/
inductive JsVal where
  | undef
  | null
  | bool (b : Bool)
  | num (n : Int)
  | str (s : String)
  deriving DecidableEq

/-- JS `ToString`, as applied to a key by the `res[key] = value` assignment in
`toObject` (property keys of plain objects are strings). -/
def JsVal.jsToString : JsVal → String
  | .undef => "undefined"
  | .null => "null"
  | .bool true => "true"
  | .bool false => "false"
  | .num n => toString n
  | .str s => s

/-- JS `ToBoolean` (`Boolean(x)` / truthiness of an `if` condition). -/
def JsVal.truthy : JsVal → Bool
  | .undef => false
  | .null => false
  | .bool b => b
  | .num n => n != 0
  | .str s => s != ""

/-- The errors the source can throw: `ReadOnlyError` (carrying the property
name), `InvalidArgumentsError` (carrying the message), `EventsSupportError`,
and the engine-level `TypeError` raised by reading a property of `undefined`
or calling `undefined` as a function. -/
inductive JsError where
  | readOnly (propName : String)
  | invalidArguments (msg : String)
  | incompatibleConfiguration (msg : String)
  | eventsSupport
  | typeError
  deriving DecidableEq

/-- The `message` of each modelled error, per the error-class constructors in
the source (`TypeError` messages are engine-generated; we use a fixed tag). -/
def JsError.message : JsError → String
  | .readOnly p => "\x27" ++ p ++ "\x27 is a read-only property."
  | .invalidArguments m => m
  | .incompatibleConfiguration m => m
  | .eventsSupport => "Events are not supported."
  | .typeError => "TypeError"

/-- Whether an error is the `IncompatibleConfigurationError` of the source. -/
def JsError.isIncompatibleConfiguration : JsError → Bool
  | .incompatibleConfiguration _ => true
  | _ => false

namespace JsMap

variable {κ V : Type} [DecidableEq κ]

/-- JS `Map.prototype.get`: value of the first (only) entry with this key. -/
def get : List (κ × V) → κ → Option V
  | [], _ => none
  | kv :: rest, k => if kv.1 = k then some kv.2 else get rest k

/-- JS `Map.prototype.set`: overwrite in place if the key exists (keeping its
position in insertion order), otherwise append a new entry. -/
def set : List (κ × V) → κ → V → List (κ × V)
  | [], k, v => [(k, v)]
  | kv :: rest, k, v => if kv.1 = k then (k, v) :: rest else kv :: set rest k v

/-- JS `Map.prototype.has`. -/
def has : List (κ × V) → κ → Bool
  | [], _ => false
  | kv :: rest, k => kv.1 = k || has rest k

/-- JS `Map.prototype.delete`, state part: remove the entry with this key. -/
def del : List (κ × V) → κ → List (κ × V)
  | [], _ => []
  | kv :: rest, k => if kv.1 = k then rest else kv :: del rest k

/-- The keys of the map, in insertion order. -/
def keysOf (l : List (κ × V)) : List κ := l.map Prod.fst

theorem has_iff_mem_keysOf (l : List (κ × V)) (k : κ) :
    has l k = true ↔ k ∈ keysOf l := by
  induction l with
  | nil => simp [has, keysOf]
  | cons kv rest ih =>
    simp only [has, keysOf, List.map_cons, List.mem_cons, Bool.or_eq_true,
      decide_eq_true_eq] at *
    constructor
    · rintro (h | h)
      · exact Or.inl h.symm
      · exact Or.inr (ih.mp h)
    · rintro (h | h)
      · exact Or.inl h.symm
      · exact Or.inr (ih.mpr h)

theorem get_eq_none_of_not_mem {l : List (κ × V)} {k : κ}
    (h : k ∉ keysOf l) : get l k = none := by
  induction l with
  | nil => rfl
  | cons kv rest ih =>
    simp only [keysOf, List.map_cons, List.mem_cons] at h
    push_neg at h
    have hne : ¬ kv.1 = k := fun hk => h.1 hk.symm
    simp only [get, if_neg hne]
    exact ih h.2

theorem get_set_self (l : List (κ × V)) (k : κ) (v : V) :
    get (set l k v) k = some v := by
  induction l with
  | nil => simp [get, set]
  | cons kv rest ih =>
    by_cases h : kv.1 = k
    · simp [set, get, h]
    · simp [set, get, h, ih]

theorem get_set_ne (l : List (κ × V)) {k k' : κ} (v : V) (h : k' ≠ k) :
    get (set l k v) k' = get l k' := by
  induction l with
  | nil =>
    have hne : ¬ k = k' := fun hk => h hk.symm
    simp [get, set, hne]
  | cons kv rest ih =>
    by_cases hk : kv.1 = k
    · subst hk
      have hne : ¬ kv.1 = k' := fun hk' => h hk'.symm
      simp [set, get, hne]
    · simp only [set, if_neg hk, get]
      by_cases hk' : kv.1 = k'
      · simp [hk']
      · simp [hk', ih]

theorem set_eq_append_of_not_mem {l : List (κ × V)} {k : κ} (v : V)
    (h : k ∉ keysOf l) : set l k v = l ++ [(k, v)] := by
  induction l with
  | nil => rfl
  | cons kv rest ih =>
    simp only [keysOf, List.map_cons, List.mem_cons] at h
    push_neg at h
    have hne : ¬ kv.1 = k := fun hk => h.1 hk.symm
    simp [set, hne, ih h.2]

theorem keysOf_set_of_mem {l : List (κ × V)} {k : κ} (v : V)
    (h : k ∈ keysOf l) : keysOf (set l k v) = keysOf l := by
  induction l with
  | nil => simp [keysOf] at h
  | cons kv rest ih =>
    by_cases hk : kv.1 = k
    · simp [set, hk, keysOf]
    · simp only [keysOf, List.map_cons, List.mem_cons] at h
      rcases h with h | h
      · exact absurd h.symm hk
      · simp only [set, if_neg hk, keysOf, List.map_cons]
        have hrec := ih h
        simp only [keysOf] at hrec
        rw [hrec]

theorem length_set_of_mem {l : List (κ × V)} {k : κ} (v : V)
    (h : k ∈ keysOf l) : (set l k v).length = l.length := by
  have := keysOf_set_of_mem (l := l) v h
  have h1 : (keysOf (set l k v)).length = (keysOf l).length := by rw [this]
  simpa [keysOf] using h1

theorem length_set_of_not_mem {l : List (κ × V)} {k : κ} (v : V)
    (h : k ∉ keysOf l) : (set l k v).length = l.length + 1 := by
  rw [set_eq_append_of_not_mem v h]
  simp

theorem del_of_not_mem {l : List (κ × V)} {k : κ}
    (h : k ∉ keysOf l) : del l k = l := by
  induction l with
  | nil => rfl
  | cons kv rest ih =>
    simp only [keysOf, List.map_cons, List.mem_cons] at h
    push_neg at h
    have hne : ¬ kv.1 = k := fun hk => h.1 hk.symm
    simp [del, hne, ih h.2]

theorem keysOf_del_sublist (l : List (κ × V)) (k : κ) :
    (keysOf (del l k)).Sublist (keysOf l) := by
  induction l with
  | nil => simp [del, keysOf]
  | cons kv rest ih =>
    by_cases hk : kv.1 = k
    · simp only [del, if_pos hk, keysOf, List.map_cons]
      exact (List.sublist_cons_self _ _)
    · simp only [del, if_neg hk, keysOf, List.map_cons]
      exact ih.cons₂ _

theorem not_mem_keysOf_del {l : List (κ × V)} {k : κ}
    (h : (keysOf l).Nodup) : k ∉ keysOf (del l k) := by
  induction l with
  | nil => simp [del, keysOf]
  | cons kv rest ih =>
    simp only [keysOf, List.map_cons, List.nodup_cons] at h
    by_cases hk : kv.1 = k
    · subst hk
      simp only [del, if_pos rfl]
      exact h.1
    · simp only [del, if_neg hk, keysOf, List.map_cons, List.mem_cons]
      push_neg
      exact ⟨fun hq => hk hq.symm, ih h.2⟩

theorem nodup_keysOf_set {l : List (κ × V)} {k : κ} (v : V)
    (h : (keysOf l).Nodup) : (keysOf (set l k v)).Nodup := by
  by_cases hm : k ∈ keysOf l
  · rwa [keysOf_set_of_mem v hm]
  · rw [set_eq_append_of_not_mem v hm]
    simp only [keysOf, List.map_append, List.map_cons, List.map_nil]
    simp only [keysOf] at h hm
    simpa using List.Nodup.append h (by simp) (by simpa using fun hx => hm hx)

theorem nodup_keysOf_del {l : List (κ × V)} (k : κ)
    (h : (keysOf l).Nodup) : (keysOf (del l k)).Nodup :=
  (keysOf_del_sublist l k).nodup h

theorem mem_keysOf_set_subset {l : List (κ × V)} {k k' : κ} {v : V}
    (h : k' ∈ keysOf (set l k v)) : k' ∈ keysOf l ∨ k' = k := by
  by_cases hm : k ∈ keysOf l
  · rw [keysOf_set_of_mem v hm] at h
    exact Or.inl h
  · rw [set_eq_append_of_not_mem v hm] at h
    simp only [keysOf, List.map_append, List.map_cons, List.map_nil,
      List.mem_append, List.mem_cons, List.not_mem_nil, or_false] at h
    rcases h with h | h
    · exact Or.inl h
    · exact Or.inr h

theorem mem_keysOf_del_subset {l : List (κ × V)} {k k' : κ}
    (h : k' ∈ keysOf (del l k)) : k' ∈ keysOf l :=
  (keysOf_del_sublist l k).subset h

end JsMap

/-- Configuration object for `BulletproofCollection` (`BpCollectionConfig` in
the source).  `keyExtractor` may be absent (`undefined`), modelled by `none`;
`enableEvents` is an arbitrary JS value passed through `Boolean(...)`. -/
structure BpCollectionConfig (V : Type) where
  keyExtractor : Option (V → JsVal)
  enableEvents : JsVal

/-- `defaultBulletproofConfig` from the source:
`\x7b keyExtractor: undefined, enableEvents: false \x7d`.  (Declared in the
source but never consulted by the constructor.) -/
def defaultBulletproofConfig (V : Type) : BpCollectionConfig V :=
  { keyExtractor := none, enableEvents := .bool false }

/-- The collection state: the saved configuration (`_keyExtractor`,
`_enableEvents`), whether the event center `_ec` was created, and the backing
insertion-ordered map `_map`. -/
structure BulletproofCollection (V : Type) where
  _keyExtractor : Option (V → JsVal)
  _enableEvents : Bool
  _ec : Bool
  _map : List (JsVal × V)

namespace BulletproofCollection

variable {V α : Type}

/-- The constructor.  `envEC` says whether the host environment provides an
event-notification mechanism (`EventCenter` from `require('events')`).
Reading `config.keyExtractor` when `config` is absent raises a `TypeError`;
`activateEvents` raises `EventsSupportError` when events are requested but the
environment has none; otherwise the collection starts empty (`reset`). -/
def construct (envEC : Bool) (config : Option (BpCollectionConfig V)) :
    Except JsError (BulletproofCollection V) :=
  match config with
  | none => .error .typeError
  | some cfg =>
    let en := cfg.enableEvents.truthy
    if en && !envEC then
      .error .eventsSupport
    else
      .ok { _keyExtractor := cfg.keyExtractor, _enableEvents := en,
            _ec := en, _map := [] }

/-- `reset()`: clears the backing map, keeping the configuration. -/
def reset (c : BulletproofCollection V) : BulletproofCollection V :=
  { c with _map := [] }

/-- `get size()`: number of entries in the backing map. -/
def size (c : BulletproofCollection V) : Nat :=
  c._map.length

/-- `get lastIndex()`: `undefined` when `size === 0`, else `size - 1`. -/
def lastIndex (c : BulletproofCollection V) : Option Nat :=
  if c.size = 0 then none else some (c.size - 1)

/-- The key sequence produced by the `keys` getter, in insertion order. -/
def keysList (c : BulletproofCollection V) : List JsVal :=
  JsMap.keysOf c._map

/-- The value sequence produced by default iteration (`[Symbol.iterator]`),
in insertion order. -/
def valuesList (c : BulletproofCollection V) : List V :=
  c._map.map Prod.snd

/-- The sequence produced by the `keysAndValues` getter. -/
def keysAndValuesList (c : BulletproofCollection V) : List (JsVal × V) :=
  c._map

/-- `get first()`: the first value yielded by the iterator, or `undefined`. -/
def first (c : BulletproofCollection V) : Option V :=
  c.valuesList.head?

/-- The loop inside `index(i)`: walk the values with a counter, returning the
value whose counter equals `i` (`undefined` when the loop ends). -/
def indexLoop : List V → Int → Int → Option V
  | [], _, _ => none
  | v :: rest, i, cnt => if cnt = i then some v else indexLoop rest i (cnt + 1)

/-- `index(i)`: value at positional index `i`, or `undefined`. -/
def index (c : BulletproofCollection V) (i : Int) : Option V :=
  indexLoop c.valuesList i 0

/-- `get last()`: `index(lastIndex)` when `lastIndex` is defined, else
`undefined`. -/
def last (c : BulletproofCollection V) : Option V :=
  match c.lastIndex with
  | none => none
  | some i => c.index (i : Int)

/-- `addCustom(key, value)`: rejects `undefined` keys with
`InvalidArgumentsError`, otherwise `Map.set`s the entry (emitting an `add`
event when `_ec` exists, which does not change the state). -/
def addCustom (c : BulletproofCollection V) (key : JsVal) (value : V) :
    Except JsError (BulletproofCollection V) :=
  if key = .undef then
    .error (.invalidArguments "\x27undefined\x27 keys are not allowed.")
  else
    .ok { c with _map := JsMap.set c._map key value }

/-- `add(value)`: calls `this._keyExtractor(value)`; when no key extractor is
configured this is a call of `undefined` as a function, a `TypeError`. -/
def add (c : BulletproofCollection V) (value : V) :
    Except JsError (BulletproofCollection V) :=
  match c._keyExtractor with
  | none => .error .typeError
  | some f => c.addCustom (f value) value

/-- `key(k)`: `Map.get`. -/
def key (c : BulletproofCollection V) (k : JsVal) : Option V :=
  JsMap.get c._map k

/-- `hasKey(k)`: `Map.has`. -/
def hasKey (c : BulletproofCollection V) (k : JsVal) : Bool :=
  JsMap.has c._map k

/-- `hasIndex(i)`: `0 <= i < size`. -/
def hasIndex (c : BulletproofCollection V) (i : Int) : Bool :=
  0 ≤ i && i < (c.size : Int)

/-- `removeKey(k)`: reads the value, `Map.delete`s the key (emitting a
`remove` event only when something was deleted), and returns the value.
The pair is (returned value, post-state). -/
def removeKey (c : BulletproofCollection V) (k : JsVal) :
    Option V × BulletproofCollection V :=
  (c.key k, { c with _map := JsMap.del c._map k })

/-- The loop inside `indexToKey(i)`: walk the keys with a counter.  The JS
function returns `undefined` when the loop ends, which is `JsVal.undef`. -/
def indexToKeyLoop : List JsVal → Int → Int → JsVal
  | [], _, _ => JsVal.undef
  | k :: rest, i, cnt => if cnt = i then k else indexToKeyLoop rest i (cnt + 1)

/-- `indexToKey(i)`: key at positional index `i`, or `undefined`. -/
def indexToKey (c : BulletproofCollection V) (i : Int) : JsVal :=
  indexToKeyLoop c.keysList i 0

/-- `removeIndex(i)`: `removeKey(indexToKey(i))`. -/
def removeIndex (c : BulletproofCollection V) (i : Int) :
    Option V × BulletproofCollection V :=
  c.removeKey (c.indexToKey i)

/-- `randomBetween(min, max)` from the source, with `Math.random()` made an
explicit rational argument `q`:
`Math.floor(q * (max - min + 1)) + min` (for integer `min`, `max` the
`Math.ceil`/`Math.floor` normalizations are identities). -/
def randomBetween (mn mx : Int) (q : ℚ) : Int :=
  ⌊q * ((mx : ℚ) - (mn : ℚ) + 1)⌋ + mn

/-- `randomKey()`: when `size` is truthy, `indexToKey(randomBetween(0,
lastIndex))` (here `lastIndex = size - 1` since `size > 0`); else
`undefined`. -/
def randomKey (c : BulletproofCollection V) (q : ℚ) : JsVal :=
  if c.size ≠ 0 then
    c.indexToKey (randomBetween 0 ((c.size : Int) - 1) q)
  else
    JsVal.undef

/-- `random()`: `key(randomKey())`. -/
def random (c : BulletproofCollection V) (q : ℚ) : Option V :=
  c.key (c.randomKey q)

/-- `pullRandomKey()`: removes the random key and returns it, with the
post-state. -/
def pullRandomKey (c : BulletproofCollection V) (q : ℚ) :
    JsVal × BulletproofCollection V :=
  let rk := c.randomKey q
  (rk, (c.removeKey rk).2)

/-- `pullRandom()`: `removeKey(randomKey())`: returned value and post-state. -/
def pullRandom (c : BulletproofCollection V) (q : ℚ) :
    Option V × BulletproofCollection V :=
  c.removeKey (c.randomKey q)

/-- The `(value, key)` invocation sequence of `forEach` (`Map.forEach` passes
`(value, key)` per entry in insertion order; the third callback argument is
the collection itself). -/
def forEachPairs (c : BulletproofCollection V) : List (V × JsVal) :=
  c._map.map (fun kv => (kv.2, kv.1))

/-- `map(fn)`: collects `fn(value, key, collection)` per entry via
`forEach`. -/
def map (c : BulletproofCollection V) (fn : V → JsVal → BulletproofCollection V → α) :
    List α :=
  c.forEachPairs.map (fun p => fn p.1 p.2 c)

/-- The loop inside `filter`: `forEach` over the entries, `addCustom`-ing
into the result the entries on which the predicate is truthy; a thrown error
propagates. -/
def filterLoop (c : BulletproofCollection V)
    (fn : V → JsVal → BulletproofCollection V → Bool) :
    List (JsVal × V) → BulletproofCollection V →
      Except JsError (BulletproofCollection V)
  | [], res => .ok res
  | kv :: rest, res =>
    if fn kv.2 kv.1 c then
      (res.addCustom kv.1 kv.2).bind (fun res' => filterLoop c fn rest res')
    else
      filterLoop c fn rest res

/-- `filter(fn)`: builds a new collection
`new BulletproofCollection(\x7bkeyExtractor: this._keyExtractor\x7d)` (so
`enableEvents` is `undefined`, hence falsy: no event center) and inserts the
entries whose predicate result is truthy, in iteration order. -/
def filter (c : BulletproofCollection V)
    (fn : V → JsVal → BulletproofCollection V → Bool) :
    Except JsError (BulletproofCollection V) :=
  filterLoop c fn c._map
    { _keyExtractor := c._keyExtractor, _enableEvents := false,
      _ec := false, _map := [] }

/-- `filterToArray(fn)`: values on which the predicate is truthy, in
iteration order. -/
def filterToArray (c : BulletproofCollection V)
    (fn : V → JsVal → BulletproofCollection V → Bool) : List V :=
  (c._map.filter (fun kv => fn kv.2 kv.1 c)).map Prod.snd

/-- The loop inside `toObject`: `res[key] = value` for each entry in
iteration order; property keys of a plain object are strings, so the key is
converted with JS `ToString`. -/
def toObjectLoop : List (JsVal × V) → List (String × V) → List (String × V)
  | [], res => res
  | kv :: rest, res => toObjectLoop rest (JsMap.set res kv.1.jsToString kv.2)

/-- `toObject()`: snapshot of the entries as a plain object, modelled as an
ordered list of string-keyed properties. -/
def toObject (c : BulletproofCollection V) : List (String × V) :=
  toObjectLoop c._map []

/-- `set lastIndex(i)`: always throws. -/
def setLastIndex (c : BulletproofCollection V) (i : α) :
    Except JsError (BulletproofCollection V) :=
  .error (.readOnly "lastIndex")

/-- `set size(s)`: always throws. -/
def setSize (c : BulletproofCollection V) (s : α) :
    Except JsError (BulletproofCollection V) :=
  .error (.readOnly "size")

/-- `set first(f)`: always throws. -/
def setFirst (c : BulletproofCollection V) (f : α) :
    Except JsError (BulletproofCollection V) :=
  .error (.readOnly "first")

/-- `set last(l)`: always throws. -/
def setLast (c : BulletproofCollection V) (l : α) :
    Except JsError (BulletproofCollection V) :=
  .error (.readOnly "last")

/-- `set keys(k)`: always throws. -/
def setKeys (c : BulletproofCollection V) (k : α) :
    Except JsError (BulletproofCollection V) :=
  .error (.readOnly "keys")

/-- `set keysAndValues(k)`: always throws. -/
def setKeysAndValues (c : BulletproofCollection V) (k : α) :
    Except JsError (BulletproofCollection V) :=
  .error (.readOnly "keysAndValues")

end BulletproofCollection

/-- The empty collection produced by constructing with the (never-consulted)
default configuration: no key extractor, events disabled, empty map. -/
def emptyCollection (V : Type) : BulletproofCollection V :=
  { _keyExtractor := none, _enableEvents := false, _ec := false, _map := [] }

/-- Whether a JS value is a string. -/
def JsVal.isStr : JsVal → Bool
  | .str _ => true
  | _ => false

theorem except_bind_ok {ε α β : Type} (a : α) (f : α → Except ε β) :
    (Except.ok a).bind f = f a := rfl

theorem except_bind_error {ε α β : Type} (e : ε) (f : α → Except ε β) :
    (Except.error e : Except ε α).bind f = .error e := rfl

namespace BulletproofCollection

variable {V α : Type}

/-- The loop performing the re-insertion half of the round-trip property:
`addCustom` each `(key, value)` property of a `toObject()` snapshot (object
property keys are strings) into an accumulator collection, propagating a
thrown error. -/
def reinsertLoop : List (String × V) → BulletproofCollection V →
    Except JsError (BulletproofCollection V)
  | [], acc => .ok acc
  | sv :: rest, acc =>
    (acc.addCustom (.str sv.1) sv.2).bind (fun acc' => reinsertLoop rest acc')

/-- The round-trip of the specification: `toObject()` followed by
re-inserting each resulting `(key, value)` pair via `addCustom` into a fresh
collection. -/
def roundTrip (c : BulletproofCollection V) :
    Except JsError (BulletproofCollection V) :=
  reinsertLoop c.toObject (emptyCollection V)

/-- The structural invariant every collection reachable through the public
API satisfies: no stored key is `undefined`, and keys are unique. -/
def Inv (c : BulletproofCollection V) : Prop :=
  JsVal.undef ∉ c.keysList ∧ c.keysList.Nodup

/-- The states producible by the public state-changing operations of the
class, starting from a successful construction. -/
inductive Reachable : BulletproofCollection V → Prop where
  | construct_ (envEC : Bool) (config : Option (BpCollectionConfig V))
      (c : BulletproofCollection V) :
      construct envEC config = .ok c → Reachable c
  | addCustom_ (c c' : BulletproofCollection V) (k : JsVal) (v : V) :
      Reachable c → c.addCustom k v = .ok c' → Reachable c'
  | add_ (c c' : BulletproofCollection V) (v : V) :
      Reachable c → c.add v = .ok c' → Reachable c'
  | removeKey_ (c : BulletproofCollection V) (k : JsVal) :
      Reachable c → Reachable (c.removeKey k).2
  | removeIndex_ (c : BulletproofCollection V) (i : Int) :
      Reachable c → Reachable (c.removeIndex i).2
  | reset_ (c : BulletproofCollection V) :
      Reachable c → Reachable c.reset
  | pullRandomKey_ (c : BulletproofCollection V) (q : ℚ) :
      Reachable c → Reachable (c.pullRandomKey q).2
  | pullRandom_ (c : BulletproofCollection V) (q : ℚ) :
      Reachable c → Reachable (c.pullRandom q).2
  | filter_ (c c' : BulletproofCollection V)
      (fn : V → JsVal → BulletproofCollection V → Bool) :
      Reachable c → c.filter fn = .ok c' → Reachable c'

theorem addCustom_eq_ok {c c' : BulletproofCollection V} {k : JsVal} {v : V}
    (h : c.addCustom k v = .ok c') :
    k ≠ .undef ∧ c' = { c with _map := JsMap.set c._map k v } := by
  by_cases hk : k = JsVal.undef
  · rw [addCustom, if_pos hk] at h
    exact absurd h (by simp)
  · rw [addCustom, if_neg hk] at h
    exact ⟨hk, (Except.ok.injEq _ _ ▸ h).symm⟩

theorem addCustom_ok_of_ne {c : BulletproofCollection V} {k : JsVal} (v : V)
    (hk : k ≠ .undef) :
    c.addCustom k v = .ok { c with _map := JsMap.set c._map k v } := by
  rw [addCustom, if_neg hk]

theorem inv_addCustom {c c' : BulletproofCollection V} {k : JsVal} {v : V}
    (hc : Inv c) (h : c.addCustom k v = .ok c') : Inv c' := by
  obtain ⟨hk, rfl⟩ := addCustom_eq_ok h
  constructor
  · intro hmem
    rcases JsMap.mem_keysOf_set_subset hmem with hm | hm
    · exact hc.1 hm
    · exact hk hm.symm
  · exact JsMap.nodup_keysOf_set v hc.2

theorem inv_removeKey (c : BulletproofCollection V) (k : JsVal)
    (hc : Inv c) : Inv (c.removeKey k).2 := by
  constructor
  · intro hmem
    exact hc.1 (JsMap.mem_keysOf_del_subset hmem)
  · exact JsMap.nodup_keysOf_del k hc.2

theorem inv_construct {envEC : Bool} {config : Option (BpCollectionConfig V)}
    {c : BulletproofCollection V} (h : construct envEC config = .ok c) :
    Inv c := by
  match config with
  | none => simp [construct] at h
  | some cfg =>
    rw [construct] at h
    by_cases hev : (cfg.enableEvents.truthy && !envEC) = true
    · simp [hev] at h
    · simp only [hev, Bool.false_eq_true, if_false, if_neg hev,
        Except.ok.injEq] at h
      subst h
      exact ⟨by simp [keysList, JsMap.keysOf], by simp [keysList, JsMap.keysOf]⟩

theorem filterLoop_inv {c : BulletproofCollection V}
    {fn : V → JsVal → BulletproofCollection V → Bool} :
    ∀ (l : List (JsVal × V)) (res r : BulletproofCollection V),
      Inv res → filterLoop c fn l res = .ok r → Inv r := by
  intro l
  induction l with
  | nil =>
    intro res r hres h
    rw [filterLoop] at h
    obtain rfl : res = r := by simpa using h
    exact hres
  | cons kv rest ih =>
    intro res r hres h
    rw [filterLoop] at h
    by_cases hfn : fn kv.2 kv.1 c = true
    · rw [if_pos hfn] at h
      rcases hadd : res.addCustom kv.1 kv.2 with e | res'
      · rw [hadd, except_bind_error] at h
        exact absurd h (by simp)
      · rw [hadd, except_bind_ok] at h
        exact ih res' r (inv_addCustom hres hadd) h
    · rw [if_neg hfn] at h
      exact ih res r hres h

theorem inv_filter {c c' : BulletproofCollection V}
    {fn : V → JsVal → BulletproofCollection V → Bool}
    (h : c.filter fn = .ok c') : Inv c' := by
  refine filterLoop_inv c._map _ c' ?_ h
  exact ⟨by simp [keysList, JsMap.keysOf], by simp [keysList, JsMap.keysOf]⟩

/-- Every collection reachable through the public API has unique keys, none
of them `undefined`. -/
theorem reachable_inv {c : BulletproofCollection V}
    (h : Reachable c) : Inv c := by
  induction h with
  | construct_ envEC config c h => exact inv_construct h
  | addCustom_ c c' k v _ h ih => exact inv_addCustom ih h
  | add_ c c' v _ h ih =>
    rw [add] at h
    rcases hke : c._keyExtractor with _ | f
    · rw [hke] at h; simp at h
    · rw [hke] at h; exact inv_addCustom ih h
  | removeKey_ c k _ ih => exact inv_removeKey c k ih
  | removeIndex_ c i _ ih => exact inv_removeKey c _ ih
  | reset_ c _ ih =>
    exact ⟨by simp [reset, keysList, JsMap.keysOf], by simp [reset, keysList, JsMap.keysOf]⟩
  | pullRandomKey_ c q _ ih => exact inv_removeKey c _ ih
  | pullRandom_ c q _ ih => exact inv_removeKey c _ ih
  | filter_ c c' fn _ h ih => exact inv_filter h

end BulletproofCollection

namespace JsMap

variable {κ V : Type} [DecidableEq κ]

theorem get_isSome_of_mem {l : List (κ × V)} {k : κ}
    (h : k ∈ keysOf l) : (get l k).isSome = true := by
  induction l with
  | nil => simp [keysOf] at h
  | cons kv rest ih =>
    by_cases hk : kv.1 = k
    · simp [get, hk]
    · simp only [keysOf, List.map_cons, List.mem_cons] at h
      rcases h with h | h
      · exact absurd h.symm hk
      · simp only [get, if_neg hk]
        exact ih h

theorem mem_keysOf_set_self (l : List (κ × V)) (k : κ) (v : V) :
    k ∈ keysOf (set l k v) := by
  by_cases hm : k ∈ keysOf l
  · rwa [keysOf_set_of_mem v hm]
  · rw [set_eq_append_of_not_mem v hm]
    simp [keysOf]

end JsMap

namespace BulletproofCollection

variable {V α : Type}

theorem hasKey_iff_mem_keysList (c : BulletproofCollection V) (k : JsVal) :
    c.hasKey k = true ↔ k ∈ c.keysList :=
  JsMap.has_iff_mem_keysOf c._map k

/-- What `filter` computes on a collection with unique, non-`undefined` keys:
the fresh result collection holds exactly the entries on which the predicate
is truthy, in iteration order, with the same key extractor and no events. -/
theorem filterLoop_eq_append (c : BulletproofCollection V)
    (fn : V → JsVal → BulletproofCollection V → Bool) :
    ∀ (l : List (JsVal × V)) (res : BulletproofCollection V),
      (∀ kv ∈ l, kv.1 ≠ JsVal.undef) →
      (JsMap.keysOf l).Nodup →
      (∀ k ∈ JsMap.keysOf l, k ∉ JsMap.keysOf res._map) →
      filterLoop c fn l res =
        .ok { res with _map := res._map ++ l.filter (fun kv => fn kv.2 kv.1 c) } := by
  intro l
  induction l with
  | nil =>
    intro res _ _ _
    simp [filterLoop]
  | cons kv rest ih =>
    intro res hundef hnd hdisj
    have hkundef : kv.1 ≠ JsVal.undef := hundef kv (by simp)
    have hknotres : kv.1 ∉ JsMap.keysOf res._map :=
      hdisj kv.1 (by simp [JsMap.keysOf])
    simp only [JsMap.keysOf, List.map_cons, List.nodup_cons] at hnd
    have hmemrest : ∀ k ∈ JsMap.keysOf rest, k ∈ JsMap.keysOf (kv :: rest) := by
      intro k hk
      simp only [JsMap.keysOf, List.map_cons, List.mem_cons]
      exact Or.inr hk
    by_cases hfn : fn kv.2 kv.1 c = true
    · have hadd : res.addCustom kv.1 kv.2 =
          .ok { res with _map := res._map ++ [(kv.1, kv.2)] } := by
        rw [addCustom_ok_of_ne kv.2 hkundef,
          JsMap.set_eq_append_of_not_mem kv.2 hknotres]
      have hrec := ih { res with _map := res._map ++ [(kv.1, kv.2)] }
        (fun x hx => hundef x (List.mem_cons_of_mem kv hx))
        hnd.2
        (by
          intro k hk
          simp only [JsMap.keysOf, List.map_append, List.map_cons,
            List.map_nil, List.mem_append, List.mem_cons, List.not_mem_nil,
            or_false]
          push_neg
          refine ⟨hdisj k (hmemrest k hk), ?_⟩
          intro hkk
          subst hkk
          exact hnd.1 hk)
      rw [filterLoop, if_pos hfn, hadd, except_bind_ok, hrec]
      simp [List.filter_cons, hfn, List.append_assoc]
    · have hrec := ih res
        (fun x hx => hundef x (List.mem_cons_of_mem kv hx))
        hnd.2
        (fun k hk => hdisj k (hmemrest k hk))
      rw [filterLoop, if_neg hfn, hrec]
      simp [List.filter_cons, hfn]

theorem filter_eq_ok (c : BulletproofCollection V)
    (fn : V → JsVal → BulletproofCollection V → Bool)
    (hu : JsVal.undef ∉ c.keysList) (hnd : c.keysList.Nodup) :
    c.filter fn = .ok
      { _keyExtractor := c._keyExtractor, _enableEvents := false, _ec := false,
        _map := c._map.filter (fun kv => fn kv.2 kv.1 c) } := by
  rw [filter]
  have h := filterLoop_eq_append c fn c._map
    { _keyExtractor := c._keyExtractor, _enableEvents := false, _ec := false,
      _map := [] }
    (by
      intro kv hkv hk
      exact hu (by simpa [keysList, JsMap.keysOf, hk] using
        List.mem_map_of_mem Prod.fst hkv))
    hnd
    (by simp [JsMap.keysOf])
  rw [h]
  simp

theorem str_jsToString_of_isStr {k : JsVal} (h : k.isStr = true) :
    JsVal.str k.jsToString = k := by
  cases k <;> simp_all [JsVal.isStr, JsVal.jsToString]

theorem jsToString_inj_on_str {x y : JsVal} (hx : x.isStr = true)
    (hy : y.isStr = true) (h : x.jsToString = y.jsToString) : x = y := by
  cases x <;> cases y <;> simp_all [JsVal.isStr, JsVal.jsToString]

namespace BulletproofCollection

variable {V α : Type}

/-- What `toObject` computes when the produced string property keys are all
distinct: each entry becomes a fresh property, appended in iteration
order. -/
theorem toObjectLoop_eq_append :
    ∀ (l : List (JsVal × V)) (res : List (String × V)),
      (l.map (fun kv => kv.1.jsToString)).Nodup →
      (∀ s ∈ l.map (fun kv => kv.1.jsToString), s ∉ JsMap.keysOf res) →
      toObjectLoop l res = res ++ l.map (fun kv => (kv.1.jsToString, kv.2)) := by
  intro l
  induction l with
  | nil =>
    intro res _ _
    simp [toObjectLoop]
  | cons kv rest ih =>
    intro res hnd hdisj
    simp only [List.map_cons, List.nodup_cons] at hnd
    have hknotres : kv.1.jsToString ∉ JsMap.keysOf res :=
      hdisj kv.1.jsToString (by simp)
    rw [toObjectLoop, JsMap.set_eq_append_of_not_mem kv.2 hknotres]
    have hrec := ih (res ++ [(kv.1.jsToString, kv.2)])
      hnd.2
      (by
        intro s hs
        simp only [JsMap.keysOf, List.map_append, List.map_cons, List.map_nil,
          List.mem_append, List.mem_cons, List.not_mem_nil, or_false]
        push_neg
        refine ⟨hdisj s (by simp [hs]), ?_⟩
        intro hss
        subst hss
        exact hnd.1 hs)
    rw [hrec]
    simp [List.append_assoc]

/-- What the re-insertion loop computes when the incoming string keys are
distinct and fresh: every `addCustom` succeeds (a string key is never
`undefined`) and appends. -/
theorem reinsertLoop_eq_append :
    ∀ (pairs : List (String × V)) (acc : BulletproofCollection V),
      (pairs.map Prod.fst).Nodup →
      (∀ s ∈ pairs.map Prod.fst, JsVal.str s ∉ acc.keysList) →
      reinsertLoop pairs acc =
        .ok { acc with
              _map := acc._map ++ pairs.map (fun sv => (JsVal.str sv.1, sv.2)) } := by
  intro pairs
  induction pairs with
  | nil =>
    intro acc _ _
    simp [reinsertLoop]
  | cons sv rest ih =>
    intro acc hnd hdisj
    simp only [List.map_cons, List.nodup_cons] at hnd
    have hnotacc : JsVal.str sv.1 ∉ acc.keysList := hdisj sv.1 (by simp)
    have hadd : acc.addCustom (.str sv.1) sv.2 =
        .ok { acc with _map := acc._map ++ [(JsVal.str sv.1, sv.2)] } := by
      rw [addCustom_ok_of_ne sv.2 (by simp),
        JsMap.set_eq_append_of_not_mem sv.2 hnotacc]
    have hrec := ih { acc with _map := acc._map ++ [(JsVal.str sv.1, sv.2)] }
      hnd.2
      (by
        intro s hs
        simp only [keysList, JsMap.keysOf, List.map_append, List.map_cons,
          List.map_nil, List.mem_append, List.mem_cons, List.not_mem_nil,
          or_false]
        push_neg
        refine ⟨?_, ?_⟩
        · have := hdisj s (by simp [hs])
          simpa [keysList, JsMap.keysOf] using this
        · intro hss
          have : s = sv.1 := by injection hss
          subst this
          exact hnd.1 hs)
    rw [reinsertLoop, hadd, except_bind_ok, hrec]
    simp [List.append_assoc]

end BulletproofCollection

/-- **C1** (corrected).  Counterexample to the claim as stated: the absent
sentinel covers both `undefined` and `null`, but `addCustom(null, 'x')` does
NOT raise — it succeeds and stores the entry, because the source only checks
`key === undefined`.  On the empty collection the result is a collection of
size 1. -/
theorem claim_C1_cex_null_key_accepted :
    ((emptyCollection JsVal).addCustom .null (.str "x")).toOption.map
      (fun d => d.size) = some 1 := rfl

/-- **C1** (amended): for every value `v`, calling `addCustom` with an
`undefined` key raises `InvalidArgumentsError` and produces no new state
(the collection is unchanged; in particular an empty collection remains
empty), and hence no collection reachable through the public API ever stores
the key `undefined`.  (`null` keys, by contrast, are accepted.) -/
theorem claim_C1_addCustom_undef_rejected {V : Type}
    (c : BulletproofCollection V) (v : V) :
    c.addCustom .undef v =
      .error (.invalidArguments "\x27undefined\x27 keys are not allowed.") ∧
    (BulletproofCollection.Reachable c → JsVal.undef ∉ c.keysList) := by
  constructor
  · rw [BulletproofCollection.addCustom, if_pos rfl]
  · intro h
    exact (BulletproofCollection.reachable_inv h).1

/-- Witness for C1: the hypotheses hold at the freshly constructed empty
collection. -/
theorem claim_C1_witness :
    (emptyCollection JsVal).addCustom .undef (.str "x") =
      .error (.invalidArguments "\x27undefined\x27 keys are not allowed.") ∧
    JsVal.undef ∉ (emptyCollection JsVal).keysList := by
  have h := claim_C1_addCustom_undef_rejected (emptyCollection JsVal) (.str "x")
  refine ⟨h.1, h.2 ?_⟩
  exact BulletproofCollection.Reachable.construct_ false
    (some (defaultBulletproofConfig JsVal)) _ rfl

/-- **C5** (corrected).  Counterexample to the claim as stated: on a
collection constructed without a `keyExtractor`, `add(value)` does not raise
`IncompatibleConfigurationError` — it crashes with the engine `TypeError`
from calling `undefined` as a function. -/
theorem claim_C5_cex_add_is_typeerror :
    (emptyCollection JsVal)._keyExtractor = none ∧
    (emptyCollection JsVal).add (.str "x") = .error .typeError ∧
    JsError.isIncompatibleConfiguration .typeError = false :=
  ⟨rfl, rfl, rfl⟩

/-- **C5** (amended): for every collection constructed without a
`keyExtractor` and every value, `add(value)` fails with the `TypeError` of
invoking an absent function — an undefined-behavior crash rather than an
explicit `IncompatibleConfigurationError`. -/
theorem claim_C5_add_without_extractor {V : Type}
    (c : BulletproofCollection V) (v : V) (h : c._keyExtractor = none) :
    c.add v = .error .typeError ∧
    JsError.isIncompatibleConfiguration .typeError = false := by
  rw [BulletproofCollection.add, h]
  exact ⟨rfl, rfl⟩

/-- Witness for C5 at the default-configured empty collection. -/
theorem claim_C5_witness :
    (emptyCollection JsVal)._keyExtractor = none ∧
    (emptyCollection JsVal).add (.num 3) = .error .typeError :=
  ⟨rfl, (claim_C5_add_without_extractor (emptyCollection JsVal) (.num 3) rfl).1⟩

/-- **C9** (confirmed): assigning to any of the read-only properties `size`,
`lastIndex`, `first`, `last`, `keys`, `keysAndValues` raises a
`ReadOnlyError` naming that property (whose message quotes the property
name), and produces no new state — the collection's entries and size are
untouched by the attempt. -/
theorem claim_C9_readonly_setters {V α : Type} (c : BulletproofCollection V)
    (x : α) :
    c.setSize x = .error (.readOnly "size") ∧
    c.setLastIndex x = .error (.readOnly "lastIndex") ∧
    c.setFirst x = .error (.readOnly "first") ∧
    c.setLast x = .error (.readOnly "last") ∧
    c.setKeys x = .error (.readOnly "keys") ∧
    c.setKeysAndValues x = .error (.readOnly "keysAndValues") ∧
    (∀ p, (JsError.readOnly p).message =
      "\x27" ++ p ++ "\x27 is a read-only property.") :=
  ⟨rfl, rfl, rfl, rfl, rfl, rfl, fun _ => rfl⟩

/-- **C10** (confirmed): constructing with an absent configuration argument
fails with the engine `TypeError` (reading `config.keyExtractor` of
`undefined`) instead of applying the declared defaults — constructing with
`defaultBulletproofConfig` itself would have succeeded, so the default
configuration is demonstrably never consulted. -/
theorem claim_C10_constructor_requires_config {V : Type} (envEC : Bool) :
    BulletproofCollection.construct (V := V) envEC none = .error .typeError ∧
    BulletproofCollection.construct envEC (some (defaultBulletproofConfig V)) =
      .ok (emptyCollection V) := by
  refine ⟨rfl, ?_⟩
  simp [BulletproofCollection.construct, defaultBulletproofConfig,
    JsVal.truthy, emptyCollection]

/-- **C2** (confirmed): for every non-absent key `k` (neither `undefined`
nor `null`) and value `v`, `addCustom(k, v)` succeeds, and afterwards
`key(k)` returns `v`, `hasKey(k)` is true, and `size` grows by exactly 1
when `k` was new or stays the same when `k` already existed; in the
overwrite case the whole key sequence — hence the entry's position in
iteration order — is unchanged. -/
theorem claim_C2_addCustom_postconditions {V : Type}
    (c : BulletproofCollection V) (k : JsVal) (v : V)
    (hu : k ≠ .undef) (hn : k ≠ .null) :
    ∃ c', c.addCustom k v = .ok c' ∧
      c'.key k = some v ∧
      c'.hasKey k = true ∧
      (c.hasKey k = true → c'.size = c.size ∧ c'.keysList = c.keysList) ∧
      (c.hasKey k = false → c'.size = c.size + 1 ∧
        c'.keysList = c.keysList ++ [k]) := by
  refine ⟨_, BulletproofCollection.addCustom_ok_of_ne v hu, ?_, ?_, ?_, ?_⟩
  · exact JsMap.get_set_self c._map k v
  · exact (JsMap.has_iff_mem_keysOf _ _).mpr (JsMap.mem_keysOf_set_self c._map k v)
  · intro hmem
    have hk : k ∈ JsMap.keysOf c._map := (JsMap.has_iff_mem_keysOf _ _).mp hmem
    exact ⟨JsMap.length_set_of_mem v hk, JsMap.keysOf_set_of_mem v hk⟩
  · intro hnmem
    have hk : k ∉ JsMap.keysOf c._map := by
      intro hkm
      have htrue : c.hasKey k = true := (JsMap.has_iff_mem_keysOf _ _).mpr hkm
      rw [htrue] at hnmem
      exact Bool.noConfusion hnmem
    refine ⟨JsMap.length_set_of_not_mem v hk, ?_⟩
    show JsMap.keysOf (JsMap.set c._map k v) = JsMap.keysOf c._map ++ [k]
    rw [JsMap.set_eq_append_of_not_mem v hk]
    simp [JsMap.keysOf]

/-- The concrete collection used to witness C2. -/
def claimC2Input : BulletproofCollection JsVal :=
  { _keyExtractor := none, _enableEvents := false, _ec := false,
    _map := [(.num 1, .str "a")] }

/-- Witness for C2: inserting the fresh key `"b"` into a one-entry
collection gives size 2, `hasKey` true and `key` returning the value. -/
theorem claim_C2_witness :
    (claimC2Input.addCustom (.str "b") (.str "x")).toOption.map
      (fun d => (d.size, d.hasKey (.str "b"), d.key (.str "b"))) =
      some (2, true, some (.str "x")) := by
  obtain ⟨c', h1, h2, h3, _, h5⟩ :=
    claim_C2_addCustom_postconditions claimC2Input (.str "b") (.str "x")
      (by decide) (by decide)
  obtain ⟨hs, _⟩ := h5 (by decide)
  rw [h1]
  simp only [Except.toOption, Option.map_some']
  have hsz : c'.size = 2 := hs.trans rfl
  rw [hsz, h2, h3]

/-- **C7** (confirmed): on a collection containing key `k`, the first
`removeKey(k)` returns the stored value (a present value, exactly `key(k)`)
and the second returns the absent sentinel; the second call leaves `size`
unchanged. -/
theorem claim_C7_removeKey_idempotent {V : Type}
    (c : BulletproofCollection V) (k : JsVal)
    (hnd : c.keysList.Nodup) (hk : c.hasKey k = true) :
    (c.removeKey k).1 = c.key k ∧
    ((c.removeKey k).1).isSome = true ∧
    ((c.removeKey k).2.removeKey k).1 = none ∧
    ((c.removeKey k).2.removeKey k).2.size = (c.removeKey k).2.size := by
  have hkm : k ∈ JsMap.keysOf c._map := (JsMap.has_iff_mem_keysOf _ _).mp hk
  have hnotin : k ∉ JsMap.keysOf (JsMap.del c._map k) :=
    JsMap.not_mem_keysOf_del hnd
  refine ⟨rfl, JsMap.get_isSome_of_mem hkm, ?_, ?_⟩
  · exact JsMap.get_eq_none_of_not_mem hnotin
  · show (JsMap.del (JsMap.del c._map k) k).length = (JsMap.del c._map k).length
    rw [JsMap.del_of_not_mem hnotin]

/-- The concrete collection used to witness C7. -/
def claimC7Input : BulletproofCollection JsVal :=
  { _keyExtractor := none, _enableEvents := false, _ec := false,
    _map := [(.num 1, .str "a"), (.num 2, .str "b")] }

/-- Witness for C7 on a two-entry collection: first removal yields the
stored value, second yields the sentinel and keeps the size. -/
theorem claim_C7_witness :
    (claimC7Input.removeKey (.num 1)).1 = some (.str "a") ∧
    ((claimC7Input.removeKey (.num 1)).2.removeKey (.num 1)).1 = none ∧
    ((claimC7Input.removeKey (.num 1)).2.removeKey (.num 1)).2.size =
      (claimC7Input.removeKey (.num 1)).2.size := by
  obtain ⟨h1, _, h3, h4⟩ :=
    claim_C7_removeKey_idempotent claimC7Input (.num 1) (by decide) (by decide)
  exact ⟨h1.trans rfl, h3, h4⟩

/-- **C8** (confirmed): on an empty collection, `first`, `last`,
`lastIndex`, `random()`, `randomKey()` and `pullRandom()` all return the
absent sentinel without raising (none of these operations can throw in the
model), and `pullRandom` leaves the collection empty. -/
theorem claim_C8_empty_boundary {V : Type} (c : BulletproofCollection V)
    (q : ℚ) (h : c.size = 0) :
    c.lastIndex = none ∧ c.first = none ∧ c.last = none ∧
    c.randomKey q = .undef ∧ c.random q = none ∧
    (c.pullRandom q).1 = none ∧ (c.pullRandom q).2.size = 0 := by
  have hm : c._map = [] := List.length_eq_zero.mp h
  refine ⟨?_, ?_, ?_, ?_, ?_, ?_, ?_⟩
  · simp [BulletproofCollection.lastIndex, h]
  · simp [BulletproofCollection.first, BulletproofCollection.valuesList, hm]
  · simp [BulletproofCollection.last, BulletproofCollection.lastIndex, h]
  · simp [BulletproofCollection.randomKey, h]
  · simp [BulletproofCollection.random, BulletproofCollection.randomKey, h,
      BulletproofCollection.key, hm, JsMap.get]
  · simp [BulletproofCollection.pullRandom, BulletproofCollection.randomKey,
      h, BulletproofCollection.removeKey, BulletproofCollection.key, hm,
      JsMap.get]
  · simp [BulletproofCollection.pullRandom, BulletproofCollection.randomKey,
      h, BulletproofCollection.removeKey, BulletproofCollection.size, hm,
      JsMap.del]

/-- Witness for C8 at the empty collection with random draw 0. -/
theorem claim_C8_witness :
    (emptyCollection JsVal).size = 0 ∧
    ((emptyCollection JsVal).lastIndex = none ∧
     (emptyCollection JsVal).first = none ∧
     (emptyCollection JsVal).last = none ∧
     (emptyCollection JsVal).randomKey 0 = .undef ∧
     (emptyCollection JsVal).random 0 = none ∧
     ((emptyCollection JsVal).pullRandom 0).1 = none ∧
     ((emptyCollection JsVal).pullRandom 0).2.size = 0) :=
  ⟨rfl, claim_C8_empty_boundary (emptyCollection JsVal) 0 rfl⟩

/-- **C6** (confirmed): `filter(fn)` on a collection (every collection the
API can build has unique, non-`undefined` keys — see `reachable_inv`)
returns a NEW collection whose entries are exactly those on which `fn` is
truthy, in the source collection's relative iteration order, carrying the
same `keyExtractor` and with events disabled (`_enableEvents` and `_ec`
false) regardless of the source's setting.  The model is purely functional:
`filter` produces only the new collection, so the source collection `c` —
its size and entries — is untouched by the call. -/
theorem claim_C6_filter_new_collection {V : Type} (c : BulletproofCollection V)
    (fn : V → JsVal → BulletproofCollection V → Bool)
    (hu : JsVal.undef ∉ c.keysList) (hnd : c.keysList.Nodup) :
    c.filter fn = .ok
      { _keyExtractor := c._keyExtractor, _enableEvents := false, _ec := false,
        _map := c._map.filter (fun kv => fn kv.2 kv.1 c) } :=
  BulletproofCollection.filter_eq_ok c fn hu hnd

/-- The concrete collection used to witness C6 (scenario 3 of the spec:
keys and values 1..5). -/
def claimC6Input : BulletproofCollection JsVal :=
  { _keyExtractor := none, _enableEvents := false, _ec := false,
    _map := [(.num 1, .num 1), (.num 2, .num 2), (.num 3, .num 3),
             (.num 4, .num 4), (.num 5, .num 5)] }

/-- Witness for C6: filtering values greater than 2 out of 1..5 gives the
new collection `[3,4,5]` in original relative order, with no events. -/
theorem claim_C6_witness :
    claimC6Input.filter
      (fun v _ _ => match v with | JsVal.num n => decide (2 < n) | _ => false) =
      .ok { _keyExtractor := none, _enableEvents := false, _ec := false,
            _map := [(.num 3, .num 3), (.num 4, .num 4), (.num 5, .num 5)] } := by
  have h := claim_C6_filter_new_collection claimC6Input
    (fun v _ _ => match v with | JsVal.num n => decide (2 < n) | _ => false)
    (by decide) (by decide)
  exact h

/-- **C3** (confirmed): on a collection built by inserting three distinct
keys `a`, `b`, `d` in that order (for arbitrary key and value choices),
every traversal mechanism observes insertion order: `keys` yields
`[a, b, d]`, default iteration yields the values in that order, `forEach`
invokes its callback on the entries in that order, `map` produces the
callback results in that order, and `filter` keeps the surviving entries in
that relative order. -/
theorem claim_C3_iteration_order {V α : Type}
    (c₀ c₁ c₂ c₃ : BulletproofCollection V)
    (a b d : JsVal) (va vb vd : V)
    (fn : V → JsVal → BulletproofCollection V → α)
    (p : V → JsVal → BulletproofCollection V → Bool)
    (hmap0 : c₀._map = [])
    (h1 : c₀.addCustom a va = .ok c₁)
    (h2 : c₁.addCustom b vb = .ok c₂)
    (h3 : c₂.addCustom d vd = .ok c₃)
    (hab : a ≠ b) (had : a ≠ d) (hbd : b ≠ d) :
    c₃.keysList = [a, b, d] ∧
    c₃.valuesList = [va, vb, vd] ∧
    c₃.forEachPairs = [(va, a), (vb, b), (vd, d)] ∧
    c₃.map fn = [fn va a c₃, fn vb b c₃, fn vd d c₃] ∧
    c₃.filter p = .ok
      { _keyExtractor := c₃._keyExtractor, _enableEvents := false, _ec := false,
        _map := [(a, va), (b, vb), (d, vd)].filter (fun kv => p kv.2 kv.1 c₃) } := by
  obtain ⟨hau, hc1⟩ := BulletproofCollection.addCustom_eq_ok h1
  obtain ⟨hbu, hc2⟩ := BulletproofCollection.addCustom_eq_ok h2
  obtain ⟨hdu, hc3⟩ := BulletproofCollection.addCustom_eq_ok h3
  have hmap3 : c₃._map = [(a, va), (b, vb), (d, vd)] := by
    simp only [hc3, hc2, hc1, hmap0]
    simp [JsMap.set, hab, had, hbd]
  have hkeys : c₃.keysList = [a, b, d] := by
    show JsMap.keysOf c₃._map = [a, b, d]
    rw [hmap3]
    simp [JsMap.keysOf]
  refine ⟨hkeys, ?_, ?_, ?_, ?_⟩
  · show c₃._map.map Prod.snd = [va, vb, vd]
    rw [hmap3]
    rfl
  · show c₃._map.map (fun kv => (kv.2, kv.1)) = [(va, a), (vb, b), (vd, d)]
    rw [hmap3]
    rfl
  · show (c₃._map.map (fun kv => (kv.2, kv.1))).map (fun q => fn q.1 q.2 c₃) =
      [fn va a c₃, fn vb b c₃, fn vd d c₃]
    rw [hmap3]
    rfl
  · have hund : JsVal.undef ∉ c₃.keysList := by
      rw [hkeys]
      intro hmem
      simp only [List.mem_cons, List.not_mem_nil, or_false] at hmem
      rcases hmem with hx | hx | hx
      · exact hau hx.symm
      · exact hbu hx.symm
      · exact hdu hx.symm
    have hnodup : c₃.keysList.Nodup := by
      rw [hkeys]
      simp [List.nodup_cons, hab, had, hbd]
    have hf := BulletproofCollection.filter_eq_ok c₃ p hund hnodup
    rw [hf, hmap3]

/-- Intermediate collections used to witness C3: keys of three different JS
types inserted in order. -/
def claimC3Input0 : BulletproofCollection JsVal := emptyCollection JsVal

/-- Witness C3, after the first insertion. -/
def claimC3Input1 : BulletproofCollection JsVal :=
  { _keyExtractor := none, _enableEvents := false, _ec := false,
    _map := [(.num 1, .str "x")] }

/-- Witness C3, after the second insertion. -/
def claimC3Input2 : BulletproofCollection JsVal :=
  { _keyExtractor := none, _enableEvents := false, _ec := false,
    _map := [(.num 1, .str "x"), (.str "k", .str "y")] }

/-- Witness C3, after the third insertion. -/
def claimC3Input3 : BulletproofCollection JsVal :=
  { _keyExtractor := none, _enableEvents := false, _ec := false,
    _map := [(.num 1, .str "x"), (.str "k", .str "y"), (.null, .str "z")] }

/-- Witness for C3 on keys `1`, `"k"`, `null` (three different key types):
all traversals observe insertion order. -/
theorem claim_C3_witness :
    claimC3Input3.keysList = [.num 1, .str "k", .null] ∧
    claimC3Input3.valuesList = [.str "x", .str "y", .str "z"] ∧
    claimC3Input3.forEachPairs =
      [(.str "x", .num 1), (.str "y", .str "k"), (.str "z", .null)] ∧
    claimC3Input3.map (fun v k _ => (k, v)) =
      [(.num 1, .str "x"), (.str "k", .str "y"), (.null, .str "z")] ∧
    claimC3Input3.filter (fun v _ _ => v != .str "y") = .ok
      { _keyExtractor := none, _enableEvents := false, _ec := false,
        _map := [(.num 1, .str "x"), (.null, .str "z")] } := by
  have h := claim_C3_iteration_order claimC3Input0 claimC3Input1 claimC3Input2
    claimC3Input3 (.num 1) (.str "k") .null (.str "x") (.str "y") (.str "z")
    (fun v k _ => (k, v)) (fun v _ _ => v != .str "y")
    rfl rfl rfl rfl (by decide) (by decide) (by decide)
  exact ⟨h.1, h.2.1, h.2.2.1, h.2.2.2.1, h.2.2.2.2⟩

/-- The concrete collection showing C4 fails as stated: a single non-string
key. -/
def claimC4CexInput : BulletproofCollection JsVal :=
  { _keyExtractor := none, _enableEvents := false, _ec := false,
    _map := [(.num 1, .str "a")] }

/-- **C4** (corrected).  Counterexample to the claim as stated: `toObject()`
coerces property keys to strings (`res[key] = value`), so on a collection
whose only key is the number `1` the round-trip rebuilds a collection keyed
by the string `"1"` — `hasKey(1)` no longer agrees with the original. -/
theorem claim_C4_cex_number_key :
    claimC4CexInput.hasKey (.num 1) = true ∧
    (roundTrip claimC4CexInput).toOption.map (fun d => d.hasKey (.num 1)) =
      some false :=
  ⟨rfl, rfl⟩

/-- **C4** (amended): on a collection all of whose keys are strings (with
the unique-keys invariant every API-built collection has), `toObject()`
followed by re-inserting each `(key, value)` pair via `addCustom` into a
fresh collection reproduces the original `size` and key membership
(`hasKey` agrees on every key); with non-string keys the string coercion of
object property keys breaks membership agreement (see the
counterexample). -/
theorem claim_C4_roundtrip_string_keys {V : Type} (c : BulletproofCollection V)
    (hstr : ∀ k ∈ c.keysList, k.isStr = true) (hnd : c.keysList.Nodup) :
    ∃ d, roundTrip c = .ok d ∧ d.size = c.size ∧
      ∀ m, d.hasKey m = c.hasKey m := by
  have hnds : (c._map.map (fun kv => kv.1.jsToString)).Nodup := by
    have hcomp : c._map.map (fun kv => kv.1.jsToString) =
        c.keysList.map JsVal.jsToString := by
      show c._map.map (fun kv => kv.1.jsToString) =
        (c._map.map Prod.fst).map JsVal.jsToString
      rw [List.map_map]
      rfl
    rw [hcomp]
    refine List.Nodup.map_on ?_ hnd
    intro x hx y hy hxy
    exact jsToString_inj_on_str (hstr x hx) (hstr y hy) hxy
  have hto : c.toObject = c._map.map (fun kv => (kv.1.jsToString, kv.2)) := by
    rw [BulletproofCollection.toObject]
    have h := BulletproofCollection.toObjectLoop_eq_append c._map [] hnds
      (by simp [JsMap.keysOf])
    simpa using h
  have hre := BulletproofCollection.reinsertLoop_eq_append
    (c._map.map (fun kv => (kv.1.jsToString, kv.2))) (emptyCollection V)
    (by
      show ((c._map.map (fun kv => (kv.1.jsToString, kv.2))).map Prod.fst).Nodup
      rw [List.map_map]
      exact hnds)
    (by
      intro s hs
      show JsVal.str s ∉ JsMap.keysOf (emptyCollection V)._map
      simp [emptyCollection, JsMap.keysOf])
  have hmapeq : ((c._map.map (fun kv => (kv.1.jsToString, kv.2))).map
      (fun sv => (JsVal.str sv.1, sv.2))) = c._map := by
    rw [List.map_map]
    have hpt : ∀ kv ∈ c._map,
        ((fun sv : String × V => (JsVal.str sv.1, sv.2)) ∘
          (fun kv : JsVal × V => (kv.1.jsToString, kv.2))) kv = id kv := by
      intro kv hkv
      have hks : kv.1.isStr = true :=
        hstr kv.1 (List.mem_map_of_mem Prod.fst hkv)
      show (JsVal.str kv.1.jsToString, kv.2) = kv
      rw [str_jsToString_of_isStr hks]
    rw [List.map_congr_left hpt, List.map_id]
  refine ⟨{ emptyCollection V with _map := c._map }, ?_, rfl, fun m => rfl⟩
  rw [roundTrip, hto, hre]
  have hfin : (emptyCollection V)._map ++
      ((c._map.map (fun kv => (kv.1.jsToString, kv.2))).map
        (fun sv => (JsVal.str sv.1, sv.2))) = c._map := by
    rw [hmapeq]
    rfl
  rw [hfin]

/-- The concrete all-string-keys collection used to witness C4. -/
def claimC4Input : BulletproofCollection JsVal :=
  { _keyExtractor := none, _enableEvents := false, _ec := false,
    _map := [(.str "a", .num 1), (.str "b", .num 2)] }

/-- Witness for C4 on a two-entry string-keyed collection: the round-trip
agrees with the original on size and on membership (checked at a present
and at an absent key). -/
theorem claim_C4_witness :
    (roundTrip claimC4Input).toOption.map
      (fun d => (d.size, d.hasKey (.str "a"), d.hasKey (.num 9))) =
      some (claimC4Input.size, claimC4Input.hasKey (.str "a"),
        claimC4Input.hasKey (.num 9)) := by
  obtain ⟨d, hd, hs, hm⟩ := claim_C4_roundtrip_string_keys claimC4Input
    (by decide) (by decide)
  rw [hd]
  simp only [Except.toOption, Option.map_some']
  rw [hs, hm (.str "a"), hm (.num 9)]
